import Mathlib

/-
Verification development for the jenkinsfilelint repository.

Python strings are embedded as `List Char`.  Each definition below is a
shallow embedding of a function (or a fragment) of
`src/jenkinsfilelint/jenkins.py` or `src/jenkinsfilelint/cli.py`; the
doc comments point to the source location being modelled.
-/

/-- Error kinds that can escape the linting layer.  `jenkinsError` models the
repository's `JenkinsError` (a `LinterError`, carrying a message);
`pyError` models raw Python runtime errors (`KeyError`, `TypeError`,
`AttributeError`) that the code does not catch. -/
inductive PyError where
  | keyError : PyError
  | typeError : PyError
  | attributeError : PyError
deriving DecidableEq, Repr

inductive LintErr where
  | jenkinsError (msg : List Char) : LintErr
  | pyError (e : PyError) : LintErr
deriving DecidableEq, Repr

/-- The whitespace class of Python's regular-expression `\s` and `str.strip`
(the ASCII part, which covers every input in this development). -/
def pyIsSpace (c : Char) : Bool :=
  c == ' ' || c == '\t' || c == '\x0a' || c == '\x0d' || c == '\x0b' || c == '\x0c'

/-- Python `str.strip()`: drop whitespace from both ends. -/
def pyStrip (cs : List Char) : List Char :=
  ((cs.dropWhile pyIsSpace).reverse.dropWhile pyIsSpace).reverse

/-- Python `str.split(":")`: split on every colon; always returns at least
one field. -/
def splitColon : List Char → List (List Char)
  | [] => [[]]
  | c :: rest =>
    match splitColon rest with
    | [] => [[]]
    | s :: ss => if c = ':' then [] :: s :: ss else (c :: s) :: ss

/-- Python `int()` on a nonempty string of decimal digits. -/
def natOfDigits (ds : List Char) : Nat :=
  ds.foldl (fun n c => n * 10 + (c.toNat - 48)) 0

/-- Drop a single trailing newline, as Python's `$` anchor (without
`re.MULTILINE`) also matches just before a final newline. -/
def stripTrailingNL : List Char → List Char
  | [] => []
  | c :: rest => if c = '\x0a' ∧ rest = [] then [] else c :: stripTrailingNL rest

/-- The crumb-endpoint error message built by `Jenkins._get_crumb`
(jenkins.py lines 95-98). -/
def crumbErrorMsg (url : List Char) : List Char :=
  "Unable to retrieve crumb from ".data ++ url ++
    ". Crumb issuer is probably blocked.".data

/-- Embedding of `Jenkins._get_crumb` (jenkins.py lines 92-101): the response
text must start, case-insensitively, with "jenkins-crumb:"; the crumb header
is built from fields 0 and 1 of `text.split(":")` (both stripped).  Under the
guard the text contains a colon, so `split` yields at least two fields. -/
def getCrumb (url : List Char) (text : List Char) : Except LintErr (List Char × List Char) :=
  if "jenkins-crumb:".data.isPrefixOf (text.map Char.toLower) then
    let parts := splitColon text
    .ok (pyStrip (parts.getD 0 []), pyStrip (parts.getD 1 []))
  else
    .error (.jenkinsError (crumbErrorMsg url))

/-- Try to consume the literal `pat` at the head of `cs`. -/
def expectLit (pat cs : List Char) : Option (List Char) :=
  if pat.isPrefixOf cs then some (cs.drop pat.length) else none

/-- The `:?` at the head of the optional group of the `_parse_error`
regular expression. -/
def dropOptColon (cs : List Char) : List Char :=
  match cs with
  | c :: rest => if c = ':' then rest else c :: rest
  | [] => []

/-- The optional group of the `Jenkins._parse_error` regular expression
(jenkins.py lines 105-109), matched against a tail of the message and
required to reach the end of the string (the `$` anchor, which also accepts
a position just before a single final newline):
`(:?\s*@ line\s*(?P<line>\d+), column (?P<column>\d+)\.)?$`.
Each starred class is disjoint from the literal that follows it, so the
backtracking regex is equivalent to this deterministic parser. -/
def parseSuffix (cs : List Char) : Option (Nat × Nat) :=
  let cs1 := dropOptColon cs
  let cs2 := cs1.dropWhile pyIsSpace
  match expectLit "@ line".data cs2 with
  | none => none
  | some cs3 =>
    let cs4 := cs3.dropWhile pyIsSpace
    let ds := cs4.takeWhile Char.isDigit
    if ds.isEmpty then none else
    match expectLit ", column ".data (cs4.drop ds.length) with
    | none => none
    | some cs5 =>
      let ms := cs5.takeWhile Char.isDigit
      if ms.isEmpty then none else
      match (cs5.drop ms.length) with
      | '.' :: rest =>
        if rest = [] ∨ rest = ['\x0a'] then some (natOfDigits ds, natOfDigits ms)
        else none
      | _ => none

/-- The lazy `^(?P<message>.*?)` of the `_parse_error` regex: scan positions
left to right; at each position first try the optional location group (which
must span to the end of the string), else accept the end-of-string positions
(`$`).  Returns (line, column, message-group). -/
def matchLoc (acc cs : List Char) : Nat × Nat × List Char :=
  match parseSuffix cs with
  | some (l, c) => (l, c, acc.reverse)
  | none =>
    match cs with
    | [] => (1, 1, acc.reverse)
    | c :: rest =>
      if c = '\x0a' ∧ rest = [] then (1, 1, acc.reverse)
      else matchLoc (c :: acc) rest

/-- The location-matching stage of `Jenkins._parse_error`
(jenkins.py lines 105-119): line and column default to 1. -/
def parseLocation (msg : List Char) : Nat × Nat × List Char :=
  matchLoc [] msg

def jfcPat : List Char := "Jenkinsfile content '".data

def didNotPat : List Char := "' did not".data

def jfDidNot : List Char := "Jenkinsfile did not".data

/-- The greedy `.+` of the substitution pattern: the largest k ≥ 1 such that
"' did not" starts at position k of `t`. -/
def lastDidNot (t : List Char) : Option Nat :=
  ((List.range (t.length + 1)).filter
    (fun k => decide (1 ≤ k) && didNotPat.isPrefixOf (t.drop k))).getLast?

/-- Embedding of the substitution in `Jenkins._parse_error`
(jenkins.py lines 121-126):
`re.sub(r"^Jenkinsfile content '.+' did not", "Jenkinsfile did not", message, flags=re.DOTALL)`.
With the greedy `.+`, the matched region extends to the last occurrence of
"' did not". -/
def normalizeMessage (m : List Char) : List Char :=
  if jfcPat.isPrefixOf m then
    let t := m.drop jfcPat.length
    match lastDidNot t with
    | some k => jfDidNot ++ t.drop (k + didNotPat.length)
    | none => m
  else m

/-- Embedding of the whole of `Jenkins._parse_error`
(jenkins.py lines 103-128). -/
def parse_error (msg : List Char) : Nat × Nat × List Char :=
  let r := parseLocation msg
  (r.1, r.2.1, normalizeMessage r.2.2)

/-- JSON values, as produced by `response.json()`. -/
inductive Json where
  | null : Json
  | bool (b : Bool) : Json
  | num (n : Int) : Json
  | str (s : List Char) : Json
  | arr (xs : List Json) : Json
  | obj (kvs : List (List Char × Json)) : Json

/-- Python truthiness of a JSON value, as used by `x or y`. -/
def Json.truthy : Json → Bool
  | .null => false
  | .bool b => b
  | .num n => n != 0
  | .str s => !s.isEmpty
  | .arr xs => !xs.isEmpty
  | .obj kvs => !kvs.isEmpty

/-- Python `dict.get(k)`: `None` (here `Option.none`) when the key is
absent. -/
def pyGet (kvs : List (List Char × Json)) (k : List Char) : Option Json :=
  (kvs.find? (fun p => p.1 == k)).map (·.2)

/-- Python `x or y`: `x` when truthy, else `y`. -/
def pyOrElse (v dflt : Json) : Json :=
  if v.truthy then v else dflt

/-- Embedding of `result.get("data") or {}` (jenkins.py line 161).  Calling
`.get` on a non-dict raises `AttributeError`. -/
def getData : Json → Except PyError Json
  | .obj kvs => .ok (pyOrElse ((pyGet kvs "data".data).getD .null) (.obj []))
  | _ => .error .attributeError

/-- Iterating the errors value: only a list iterates into error objects; a
truthy non-list value fails during the comprehension (modelled as a
`TypeError`-kind runtime error). -/
def errorsList : Json → Except PyError (List Json)
  | .arr xs => .ok xs
  | _ => .error .typeError

/-- Embedding of `data.get("errors") or []` (jenkins.py line 165) together
with iterating the result. -/
def getErrors : Json → Except PyError (List Json)
  | .obj kvs => errorsList (pyOrElse ((pyGet kvs "errors".data).getD .null) (.arr []))
  | _ => .error .attributeError

/-- Python `errors.items()` on each element of the errors list
(jenkins.py line 166): each element must be a dict. -/
def errorItems : Json → Except PyError (List (List Char × Json))
  | .obj kvs => .ok kvs
  | _ => .error .attributeError

/-- Python `messages if isinstance(messages, list) else [messages]`
(jenkins.py lines 167-169). -/
def asMessageList : Json → List Json
  | .arr ms => ms
  | j => [j]

/-- Each flattened message is fed to `re.match`, which requires a string
(jenkins.py line 164 via line 114). -/
def asString : Json → Except PyError (List Char)
  | .str s => .ok s
  | _ => .error .typeError

/-- Left-to-right effectful map over `Except`, mirroring the evaluation
order of the list comprehension at jenkins.py lines 163-170. -/
def mapExcept (f : α → Except PyError β) : List α → Except PyError (List β)
  | [] => .ok []
  | a :: as =>
    match f a with
    | .error e => .error e
    | .ok b =>
      match mapExcept f as with
      | .error e => .error e
      | .ok bs => .ok (b :: bs)

/-- Flatten one errors-list element into its (severity, message) pairs, in
source order. -/
def flattenOne (e : Json) : Except PyError (List (List Char × List Char)) :=
  (errorItems e).bind (fun kvs =>
    (mapExcept (fun p =>
        (mapExcept asString (asMessageList p.2)).map
          (fun strs => strs.map (fun mm => (p.1, mm)))) kvs).map
      (fun nested => nested.flatten))

/-- Flatten the whole errors list into (severity, message) pairs. -/
def flattenErrors (errs : List Json) : Except PyError (List (List Char × List Char)) :=
  (mapExcept flattenOne errs).map (fun nested => nested.flatten)

/-- A diagnostic record (line, column, message, severity), matching the
tuple `(*self._parse_error(message), level)` of jenkins.py line 164. -/
abbrev Diag := Nat × Nat × List Char × List Char

def diagOfPair (p : List Char × List Char) : Diag :=
  let r := parse_error p.2
  (r.1, r.2.1, r.2.2, p.1)

/-- Embedding of the `_errors` comprehension of `Jenkins.lint`
(jenkins.py lines 160-170): extract the flattened, parsed diagnostics
from the decoded response. -/
def extractDiagnostics (result : Json) : Except PyError (List Diag) :=
  (getData result).bind (fun data =>
    (getErrors data).bind (fun errs =>
      (flattenErrors errs).map (fun pairs => pairs.map diagOfPair)))

/-- Stable insertion of a diagnostic by line number: the inserted element
precedes every element with a line number greater than or equal to its own,
which makes `sortByLine` the stable sort by line that Python's
`sorted(_errors, key=lambda x: x[0])` (jenkins.py line 171) specifies. -/
def insertByLine (d : Diag) : List Diag → List Diag
  | [] => [d]
  | e :: es => if d.1 ≤ e.1 then d :: e :: es else e :: insertByLine d es

/-- Stable sort of the diagnostics by line number (jenkins.py line 171);
the sort key is the line number only. -/
def sortByLine : List Diag → List Diag
  | [] => []
  | d :: ds => insertByLine d (sortByLine ds)

def natToChars (n : Nat) : List Char := Nat.toDigits 10 n

/-- One printed line, `f"\x7bpath\x7d:\x7bline\x7d:\x7bcolumn\x7d: \x7blevel\x7d: \x7berror\x7d"`
(jenkins.py line 172). -/
def formatDiag (path : List Char) (d : Diag) : List Char :=
  path ++ ":".data ++ natToChars d.1 ++ ":".data ++ natToChars d.2.1 ++
    ": ".data ++ d.2.2.2 ++ ": ".data ++ d.2.2.1

/-- The stdout lines produced by the print loop of `Jenkins.lint`
(jenkins.py lines 171-172), in print order. -/
def lintOutput (path : List Char) (ds : List Diag) : List (List Char) :=
  (sortByLine ds).map (formatDiag path)

/-- Python `status == "success"` (jenkins.py line 175, with
`_VALIDATOR_SUCCESS = "success"`): equality of a JSON value with the
success sentinel string. -/
def isSuccess : Json → Bool
  | .str s => s = "success".data
  | _ => false

/-- Embedding of `result["data"]["result"]` (jenkins.py line 174): raw dict
indexing; a missing key is a `KeyError`, indexing a non-dict is a
`TypeError`-kind failure. -/
def getVerdict : Json → Except PyError Json
  | .obj kvs =>
    match pyGet kvs "data".data with
    | none => .error .keyError
    | some (.obj kvs2) =>
      match pyGet kvs2 "result".data with
      | none => .error .keyError
      | some v => .ok v
    | some _ => .error .typeError
  | _ => .error .typeError

/-- Embedding of the response-processing part of `Jenkins.lint`
(jenkins.py lines 160-175): the printed lines and the boolean verdict, or
the error that escapes.  Structural failures propagate as raw Python
errors (`pyError`), never as `JenkinsError`. -/
def lintResponse (path : List Char) (result : Json) : Except LintErr (List (List Char) × Bool) :=
  match extractDiagnostics result with
  | .error e => .error (.pyError e)
  | .ok ds =>
    let out := lintOutput path ds
    match getVerdict result with
    | .error e => .error (.pyError e)
    | .ok v => .ok (out, isSuccess v)

/-- Embedding of `raise_for_status`, installed as a response hook at
jenkins.py lines 68-70: it raises exactly for 4xx and 5xx status codes. -/
def raiseForStatus (status : Nat) : Bool :=
  decide (400 ≤ status) && decide (status < 600)

/-- Embedding of `Jenkins._query` (jenkins.py lines 75-90) for one request:
a transport failure, and any `HTTPError` raised by the response hook, are
`RequestException`s and are re-raised as `JenkinsError`; every other
response is returned to the caller. -/
def queryResponse (transportError : Bool) (status : Nat) : Except LintErr Nat :=
  if transportError then .error (.jenkinsError "request exception".data)
  else if raiseForStatus status then .error (.jenkinsError "http error".data)
  else .ok status

/-- Embedding of credential attachment in `Jenkins.__init__`
(jenkins.py lines 61-62):
`if username: self._session.auth = HTTPBasicAuth(username, password or "")`. -/
def pyOrEmpty : Option (List Char) → List Char
  | none => []
  | some p => if p.isEmpty then [] else p

def initAuth (username password : Option (List Char)) : Option (List Char × List Char) :=
  match username with
  | some u => if u.isEmpty then none else some (u, pyOrEmpty password)
  | none => none

/-- Per-file loop of `main` (cli.py lines 103-111): each file produces
either a boolean, a caught `LinterError` (here `jenkinsError`), or an
uncaught Python error that aborts the loop.  Returns the final status (or
the escaping error) together with the number of files attempted. -/
def lintLoop (status : Bool) : List (Except LintErr Bool) → Except PyError Bool × Nat
  | [] => (.ok status, 0)
  | r :: rs =>
    match r with
    | .ok b =>
      let p := lintLoop (status && b) rs
      (p.1, p.2 + 1)
    | .error (.jenkinsError _) =>
      let p := lintLoop (status && false) rs
      (p.1, p.2 + 1)
    | .error (.pyError e) => (.error e, 1)

/-- Embedding of `main`'s return value, `0 if status else 1`
(cli.py line 112), still paired with the number of files attempted. -/
def mainExitCode (rs : List (Except LintErr Bool)) : Except PyError Nat × Nat :=
  let p := lintLoop true rs
  (match p.1 with
   | .ok s => .ok (if s then 0 else 1)
   | .error e => .error e,
   p.2)

def isUncaught : Except LintErr Bool → Bool
  | .error (.pyError _) => true
  | _ => false

def isOkTrue : Except LintErr Bool → Bool
  | .ok true => true
  | _ => false

/-- Python `with` semantics for the CLI's `with jenkins:` block
(cli.py lines 104-110): `__exit__` runs after the body, whether the body
completed normally or raised; the body's outcome is not altered (the
`__exit__` of jenkins.py lines 185-202 returns `None`).  The state is the
number of `close()` calls performed so far. -/
def pyWith (onExit : Nat → Nat) (body : Except PyError Bool × Nat) : Except PyError Bool × Nat :=
  match body with
  | (.ok a, s) => (.ok a, onExit s)
  | (.error e, s) => (.error e, onExit s)

/-- `Jenkins.__exit__` (jenkins.py lines 185-202): close the session when
it exists. -/
def jenkinsSessionExit (hasSession : Bool) (closes : Nat) : Nat :=
  if hasSession then closes + 1 else closes

/-- The CLI's scoped session block around the per-file loop
(cli.py lines 104-110): the loop body performs no close. -/
def mainWithSession (rs : List (Except LintErr Bool)) : Except PyError Bool × Nat :=
  pyWith (jenkinsSessionExit true) ((lintLoop true rs).1, 0)

theorem splitColon_ne_nil (cs : List Char) : splitColon cs ≠ [] := by
  cases cs with
  | nil => simp [splitColon]
  | cons c rest =>
    simp only [splitColon]
    cases h : splitColon rest with
    | nil => simp
    | cons s ss =>
      by_cases hc : c = ':' <;> simp [hc]

theorem splitColon_append (a r : List Char) (ha : ':' ∉ a) :
    splitColon (a ++ ':' :: r) = a :: splitColon r := by
  induction a with
  | nil =>
    simp only [List.nil_append, splitColon]
    cases h : splitColon r with
    | nil => exact absurd h (splitColon_ne_nil r)
    | cons s ss => simp [← h]
  | cons c a' ih =>
    have hc : c ≠ ':' := fun e => ha (by simp [e])
    have ha' : ':' ∉ a' := fun m => ha (List.mem_cons_of_mem _ m)
    simp only [List.cons_append, splitColon, List.append_eq]
    rw [ih ha']
    simp [hc]

theorem splitColon_no_colon (b : List Char) (hb : ':' ∉ b) : splitColon b = [b] := by
  induction b with
  | nil => rfl
  | cons c b' ih =>
    have hc : c ≠ ':' := fun e => hb (by simp [e])
    have hb' : ':' ∉ b' := fun m => hb (List.mem_cons_of_mem _ m)
    simp [splitColon, ih hb', hc]

/-- C1 (amended): for a crumb response passing the case-insensitive
"jenkins-crumb:" check, the header name is the (trimmed) text before the
first colon, and the header value is the (trimmed) text between the first
and the second colon — or all the text after the first colon when there is
no second colon; any response failing the check yields the `JenkinsError`
naming the server URL. -/
theorem claim_c1_amended :
    (∀ url a b c, ':' ∉ a → ':' ∉ b →
      "jenkins-crumb:".data.isPrefixOf ((a ++ ':' :: (b ++ ':' :: c)).map Char.toLower) →
      getCrumb url (a ++ ':' :: (b ++ ':' :: c)) = .ok (pyStrip a, pyStrip b)) ∧
    (∀ url a b, ':' ∉ a → ':' ∉ b →
      "jenkins-crumb:".data.isPrefixOf ((a ++ ':' :: b).map Char.toLower) →
      getCrumb url (a ++ ':' :: b) = .ok (pyStrip a, pyStrip b)) ∧
    (∀ url text, ¬ "jenkins-crumb:".data.isPrefixOf (text.map Char.toLower) →
      getCrumb url text = .error (.jenkinsError (crumbErrorMsg url))) := by
  refine ⟨?_, ?_, ?_⟩
  · intro url a b c ha hb h
    rw [getCrumb, if_pos h, splitColon_append a _ ha, splitColon_append b c hb]
    rfl
  · intro url a b ha hb h
    rw [getCrumb, if_pos h, splitColon_append a b ha, splitColon_no_colon b hb]
    rfl
  · intro url text h
    rw [getCrumb, if_neg h]

theorem claim_c1_witness :
    getCrumb "http://jenkins".data "Jenkins-Crumb: abc ".data =
      .ok ("Jenkins-Crumb".data, "abc".data) ∧
    getCrumb "http://jenkins".data "<html>blocked</html>".data =
      .error (.jenkinsError (crumbErrorMsg "http://jenkins".data)) := by
  constructor
  · have h := claim_c1_amended.2.1 "http://jenkins".data "Jenkins-Crumb".data
      " abc ".data (by decide) (by decide) (by decide)
    have e1 : "Jenkins-Crumb".data ++ ':' :: " abc ".data = "Jenkins-Crumb: abc ".data := by
      decide
    have e2 : pyStrip "Jenkins-Crumb".data = "Jenkins-Crumb".data := by decide
    have e3 : pyStrip " abc ".data = "abc".data := by decide
    rw [e1, e2, e3] at h
    exact h
  · exact claim_c1_amended.2.2 "http://jenkins".data "<html>blocked</html>".data (by decide)

theorem isDigit_not_space (c : Char) (h : c.isDigit = true) : pyIsSpace c = false := by
  by_contra hcon
  have h3 : pyIsSpace c = true := by
    cases hps : pyIsSpace c
    · exact absurd hps hcon
    · rfl
  have h2 : c = ' ' ∨ c = '\t' ∨ c = '\x0a' ∨ c = '\x0d' ∨ c = '\x0b' ∨ c = '\x0c' := by
    simpa [pyIsSpace, or_assoc] using h3
  rcases h2 with e | e | e | e | e | e <;> subst e <;> exact absurd h (by decide)

theorem space_ne_colon (c : Char) (h : pyIsSpace c = true) : c ≠ ':' := by
  intro e
  subst e
  exact absurd h (by decide)

theorem dropWhile_append_sat (p : Char → Bool) (w t : List Char)
    (hw : ∀ c ∈ w, p c = true) (ht : t.dropWhile p = t) :
    (w ++ t).dropWhile p = t := by
  induction w with
  | nil => rw [List.nil_append]; exact ht
  | cons c w' ih =>
    have hc : p c = true := hw c (by simp)
    simp only [List.cons_append, List.dropWhile_cons, hc, if_true]
    exact ih (fun x hx => hw x (by simp [hx]))

theorem takeWhile_append_sat (p : Char → Bool) (w t : List Char)
    (hw : ∀ c ∈ w, p c = true) (ht : t.takeWhile p = []) :
    (w ++ t).takeWhile p = w := by
  induction w with
  | nil => rw [List.nil_append]; exact ht
  | cons c w' ih =>
    have hc : p c = true := hw c (by simp)
    simp only [List.cons_append, List.takeWhile_cons, hc, if_true]
    rw [ih (fun x hx => hw x (by simp [hx]))]

theorem expectLit_self (pat r : List Char) : expectLit pat (pat ++ r) = some r := by
  have h : pat.isPrefixOf (pat ++ r) = true := by
    rw [List.isPrefixOf_iff_prefix]
    exact List.prefix_append pat r
  simp [expectLit, h, List.drop_left]

theorem takeWhile_digit_comma (z : List Char) :
    (", column ".data ++ z).takeWhile Char.isDigit = [] := by
  rw [show ", column ".data = ',' :: " column ".data from by decide, List.cons_append,
    List.takeWhile_cons, if_neg (by decide)]

/-- The optional location group matches a well-formed suffix made of
whitespace, the literal "@ line ", a digit run, the literal ", column ",
a digit run and a final period, extracting exactly the two numbers. -/
theorem parseSuffix_wellformed (w ds ms : List Char)
    (hw : ∀ ch ∈ w, pyIsSpace ch = true)
    (hds : ds ≠ []) (hdsd : ∀ ch ∈ ds, ch.isDigit = true)
    (hms : ms ≠ []) (hmsd : ∀ ch ∈ ms, ch.isDigit = true) :
    parseSuffix (w ++ "@ line ".data ++ ds ++ ", column ".data ++ ms ++ ".".data) =
      some (natOfDigits ds, natOfDigits ms) := by
  obtain ⟨d, ds', rfl⟩ : ∃ d ds', ds = d :: ds' := by
    cases ds with
    | nil => exact absurd rfl hds
    | cons d ds' => exact ⟨d, ds', rfl⟩
  obtain ⟨m, ms', rfl⟩ : ∃ m ms', ms = m :: ms' := by
    cases ms with
    | nil => exact absurd rfl hms
    | cons m ms' => exact ⟨m, ms', rfl⟩
  have hd : d.isDigit = true := hdsd d (by simp)
  have hm : m.isDigit = true := hmsd m (by simp)
  have eL : w ++ "@ line ".data ++ (d :: ds') ++ ", column ".data ++ (m :: ms') ++ ".".data =
      w ++ ("@ line".data ++ (' ' :: ((d :: ds') ++
        (", column ".data ++ ((m :: ms') ++ ['.']))))) := by
    rw [show "@ line ".data = "@ line".data ++ [' '] from by decide,
      show ".".data = ['.'] from by decide]
    simp only [List.append_assoc, List.singleton_append, List.cons_append, List.nil_append]
  rw [eL]
  have h1 : dropOptColon (w ++ ("@ line".data ++ (' ' :: ((d :: ds') ++
      (", column ".data ++ ((m :: ms') ++ ['.'])))))) =
      w ++ ("@ line".data ++ (' ' :: ((d :: ds') ++
      (", column ".data ++ ((m :: ms') ++ ['.']))))) := by
    cases w with
    | nil =>
      rw [List.nil_append, show "@ line".data ++ (' ' :: ((d :: ds') ++
        (", column ".data ++ ((m :: ms') ++ ['.'])))) = '@' :: (" line".data ++
        (' ' :: ((d :: ds') ++ (", column ".data ++ ((m :: ms') ++ ['.']))))) from by
          rw [show "@ line".data = '@' :: " line".data from by decide, List.cons_append]]
      simp [dropOptColon]
    | cons c w' =>
      have hne := space_ne_colon c (hw c (by simp))
      simp [dropOptColon, hne]
  have h2 : (w ++ ("@ line".data ++ (' ' :: ((d :: ds') ++
      (", column ".data ++ ((m :: ms') ++ ['.'])))))).dropWhile pyIsSpace =
      "@ line".data ++ (' ' :: ((d :: ds') ++
      (", column ".data ++ ((m :: ms') ++ ['.'])))) := by
    apply dropWhile_append_sat _ _ _ hw
    rw [show "@ line".data = '@' :: " line".data from by decide, List.cons_append,
      List.dropWhile_cons, if_neg (by decide)]
  have h4 : (' ' :: ((d :: ds') ++ (", column ".data ++ ((m :: ms') ++ ['.'])))).dropWhile
      pyIsSpace = (d :: ds') ++ (", column ".data ++ ((m :: ms') ++ ['.'])) := by
    rw [List.dropWhile_cons, if_pos (by decide), List.cons_append, List.dropWhile_cons,
      if_neg (by simp [isDigit_not_space d hd]), List.cons_append]
  have h5 : ((d :: ds') ++ (", column ".data ++ ((m :: ms') ++ ['.']))).takeWhile
      Char.isDigit = d :: ds' :=
    takeWhile_append_sat _ _ _ hdsd (takeWhile_digit_comma _)
  have h6 : ((d :: ds') ++ (", column ".data ++ ((m :: ms') ++ ['.']))).drop
      (d :: ds').length = ", column ".data ++ ((m :: ms') ++ ['.']) :=
    List.drop_left _ _
  have h7 : expectLit ", column ".data (", column ".data ++ ((m :: ms') ++ ['.'])) =
      some ((m :: ms') ++ ['.']) := expectLit_self _ _
  have h8 : ((m :: ms') ++ ['.']).takeWhile Char.isDigit = m :: ms' :=
    takeWhile_append_sat _ _ _ hmsd (by decide)
  have h9 : ((m :: ms') ++ ['.']).drop (m :: ms').length = ['.'] := List.drop_left _ _
  simp only [parseSuffix, h1, h2, expectLit_self, h4, h5, h6, h7, h8, h9]
  simp [List.isEmpty]

theorem parseSuffix_nil : parseSuffix [] = none := rfl

theorem matchLoc_default (cs : List Char) :
    ∀ acc, (∀ j, parseSuffix (cs.drop j) = none) →
      matchLoc acc cs = (1, 1, acc.reverse ++ stripTrailingNL cs) := by
  induction cs with
  | nil =>
    intro acc _
    simp [matchLoc, parseSuffix_nil, stripTrailingNL]
  | cons c rest ih =>
    intro acc h
    have h0 : parseSuffix (c :: rest) = none := h 0
    rw [matchLoc, h0]
    by_cases hend : c = '\x0a' ∧ rest = []
    · simp [hend, stripTrailingNL]
    · have h' : ∀ j, parseSuffix (rest.drop j) = none := fun j => h (j + 1)
      simp only [hend, if_false, ih (c :: acc) h']
      simp [stripTrailingNL, hend]

theorem matchLoc_found (cs : List Char) :
    ∀ acc i l c, parseSuffix (cs.drop i) = some (l, c) →
      (∀ j, j < i → parseSuffix (cs.drop j) = none) →
      matchLoc acc cs = (l, c, acc.reverse ++ cs.take i) := by
  induction cs with
  | nil =>
    intro acc i l c h1 _
    rw [List.drop_nil] at h1
    exact absurd h1 (by simp [parseSuffix_nil])
  | cons ch rest ih =>
    intro acc i l c h1 h2
    cases i with
    | zero =>
      rw [List.drop_zero] at h1
      rw [matchLoc, h1]
      simp
    | succ i' =>
      have h0 : parseSuffix (ch :: rest) = none := h2 0 (Nat.succ_pos i')
      rw [matchLoc, h0]
      have hend : ¬ (ch = '\x0a' ∧ rest = []) := by
        rintro ⟨hc, hr⟩
        subst hc; subst hr
        have : parseSuffix (List.drop (i' + 1) ['\x0a']) = some (l, c) := h1
        rw [List.drop_eq_nil_of_le (by simp)] at this
        exact absurd this (by simp [parseSuffix_nil])
      simp only [hend, if_false]
      have h1' : parseSuffix (rest.drop i') = some (l, c) := h1
      have h2' : ∀ j, j < i' → parseSuffix (rest.drop j) = none := fun j hj =>
        h2 (j + 1) (Nat.succ_lt_succ hj)
      rw [ih (ch :: acc) i' l c h1' h2']
      simp

/-- C2 (amended): the location-matching stage of `_parse_error` is total,
but (i) line and column are exactly the parsed integers, which may be 0;
(ii) the suffix need not be preceded by whitespace, an optional colon and
any run of whitespace immediately before the `@` are absorbed, and a single
trailing newline after the final period is tolerated; and (iii) a message
without any suffix yields (1, 1, the full text with at most one trailing
newline removed).  Formally: if position `i` is the first position of `msg`
at which the optional location group of the regex matches through to the
end of the string, the result is the parsed pair plus the text before `i`;
if no position matches, the result is (1, 1, `msg` minus a final newline);
and the group does match a well-formed `@ line N, column M.` suffix,
extracting N and M exactly. -/
theorem claim_c2_amended :
    (∀ msg : List Char,
      ((∀ j, j ≤ msg.length → parseSuffix (msg.drop j) = none) →
        parseLocation msg = (1, 1, stripTrailingNL msg)) ∧
      (∀ i l c, parseSuffix (msg.drop i) = some (l, c) →
        (∀ j, j < i → parseSuffix (msg.drop j) = none) →
        parseLocation msg = (l, c, msg.take i))) ∧
    (∀ w ds ms : List Char, (∀ ch ∈ w, pyIsSpace ch = true) →
      ds ≠ [] → (∀ ch ∈ ds, ch.isDigit = true) →
      ms ≠ [] → (∀ ch ∈ ms, ch.isDigit = true) →
      parseSuffix (w ++ "@ line ".data ++ ds ++ ", column ".data ++ ms ++ ".".data) =
        some (natOfDigits ds, natOfDigits ms)) := by
  refine ⟨fun msg => ⟨?_, ?_⟩, ?_⟩
  · intro h
    apply matchLoc_default
    intro j
    rcases le_or_lt j msg.length with hj | hj
    · exact h j hj
    · rw [List.drop_eq_nil_of_le (Nat.le_of_lt hj)]
      exact parseSuffix_nil
  · intro i l c h1 h2
    exact matchLoc_found msg [] i l c h1 h2
  · intro w ds ms hw hds hdsd hms hmsd
    exact parseSuffix_wellformed w ds ms hw hds hdsd hms hmsd

/-- C2 counterexample: the message " @ line 0, column 5." yields line 0,
violating the claimed line ≥ 1; and the suffix-less message "hello\n"
yields the text "hello", not the full text "hello\n" (the regex `$` anchor
absorbs a single trailing newline). -/
theorem claim_c2_counterexample :
    parse_error " @ line 0, column 5.".data = (0, 5, []) ∧ ¬ (1 ≤ 0) ∧
    parse_error "hello\x0a".data = (1, 1, "hello".data) ∧
    "hello".data ≠ "hello\x0a".data :=
  ⟨by decide, by decide, by decide, by decide⟩

theorem claim_c2_witness :
    parseLocation "Err @ line 4, column 5.".data = (4, 5, "Err".data) ∧
    parseLocation "no location here".data = (1, 1, "no location here".data) ∧
    parseSuffix " @ line 12, column 34.".data = some (12, 34) := by
  refine ⟨?_, ?_, ?_⟩
  · have h := (claim_c2_amended.1 "Err @ line 4, column 5.".data).2 3 4 5 (by decide)
      (by decide)
    have e : ("Err @ line 4, column 5.".data).take 3 = "Err".data := by decide
    rw [e] at h
    exact h
  · have h := (claim_c2_amended.1 "no location here".data).1 (by decide)
    have e : stripTrailingNL "no location here".data = "no location here".data := by decide
    rw [e] at h
    exact h
  · have h := claim_c2_amended.2 [' '] "12".data "34".data (by decide) (by decide)
      (by decide) (by decide) (by decide)
    have e : [' '] ++ "@ line ".data ++ "12".data ++ ", column ".data ++ "34".data ++
        ".".data = " @ line 12, column 34.".data := by decide
    have e2 : natOfDigits "12".data = 12 := by decide
    have e3 : natOfDigits "34".data = 34 := by decide
    rw [e, e2, e3] at h
    exact h

theorem getLast_filter_range (p : Nat → Bool) (m : Nat) :
    ∀ n, p m = true → m < n → (∀ k, k < n → p k = true → k ≤ m) →
      ((List.range n).filter p).getLast? = some m := by
  intro n
  induction n with
  | zero => intro _ h _; exact absurd h (Nat.not_lt_zero m)
  | succ n ih =>
    intro hp hmn hb
    rw [List.range_succ, List.filter_append]
    by_cases hmn2 : m = n
    · subst hmn2
      have hf : List.filter p [m] = [m] := by simp [List.filter_cons, hp]
      rw [hf, List.getLast?_concat]
    · have hmn3 : m < n := Nat.lt_of_le_of_ne (Nat.le_of_lt_succ hmn) hmn2
      have hpn : p n = false := by
        cases hpn : p n
        · rfl
        · have := hb n (Nat.lt_succ_self n) hpn
          omega
      have hf : List.filter p [n] = [] := by simp [List.filter_cons, hpn]
      rw [hf, List.append_nil]
      exact ih hp hmn3 (fun k hk hpk => hb k (Nat.lt_succ_of_lt hk) hpk)

theorem drop_append_length (x z : List Char) (k : Nat) :
    (x ++ z).drop (x.length + k) = z.drop k := by
  induction x with
  | nil => simp
  | cons c x' ih =>
    simp only [List.cons_append, List.length_cons]
    rw [Nat.add_right_comm, List.drop_succ_cons]
    exact ih

/-- C3: a message beginning with `Jenkinsfile content '<anything>' did not`
has that prefix rewritten to `Jenkinsfile did not` followed by the
untouched remainder (the `.+` is greedy, so the matched region extends to
the last occurrence of "' did not"; the remainder is what follows it); a
message not matching the full pattern — because it does not start with the
literal `Jenkinsfile content '`, or because no "' did not" occurs after at
least one quoted character — is unchanged; and the spec's example
normalizes exactly as claimed. -/
theorem claim_c3_theorem :
    (∀ x r : List Char, x ≠ [] →
      (∀ k, k < (x ++ (didNotPat ++ r)).length + 1 →
        didNotPat.isPrefixOf ((x ++ (didNotPat ++ r)).drop k) = true → k ≤ x.length) →
      normalizeMessage (jfcPat ++ (x ++ (didNotPat ++ r))) = jfDidNot ++ r) ∧
    (∀ m2 : List Char,
      (¬ jfcPat.isPrefixOf m2 = true ∨
        (∀ k, k ≤ (m2.drop jfcPat.length).length → 1 ≤ k →
          didNotPat.isPrefixOf ((m2.drop jfcPat.length).drop k) = false)) →
      normalizeMessage m2 = m2) ∧
    parse_error
        "Jenkinsfile content 'node \x7b...\x7d' did not contain the 'pipeline' step".data =
      (1, 1, "Jenkinsfile did not contain the 'pipeline' step".data) := by
  refine ⟨?_, ?_, by decide⟩
  · intro x r hx hb
    have hpre : jfcPat.isPrefixOf (jfcPat ++ (x ++ (didNotPat ++ r))) = true := by
      rw [List.isPrefixOf_iff_prefix]
      exact List.prefix_append _ _
    have hp : (fun k => decide (1 ≤ k) &&
        didNotPat.isPrefixOf ((x ++ (didNotPat ++ r)).drop k)) x.length = true := by
      have h1 : decide (1 ≤ x.length) = true := by
        simp [Nat.one_le_iff_ne_zero, List.length_eq_zero, hx]
      have h2 : didNotPat.isPrefixOf ((x ++ (didNotPat ++ r)).drop x.length) = true := by
        rw [List.drop_left, List.isPrefixOf_iff_prefix]
        exact List.prefix_append _ _
      simp [h1, h2]
    have hmn : x.length < (x ++ (didNotPat ++ r)).length + 1 := by
      simp [List.length_append]
      omega
    have hlast : lastDidNot (x ++ (didNotPat ++ r)) = some x.length := by
      unfold lastDidNot
      exact getLast_filter_range _ _ _ hp hmn
        (fun k hk hpk => hb k hk (by
          simp only [Bool.and_eq_true] at hpk
          exact hpk.2))
    simp only [normalizeMessage]
    rw [if_pos hpre, List.drop_left, hlast]
    show jfDidNot ++ (x ++ (didNotPat ++ r)).drop (x.length + didNotPat.length) =
      jfDidNot ++ r
    rw [drop_append_length, List.drop_left]
  · intro m2 h
    rcases h with h | h
    · simp only [normalizeMessage]
      rw [if_neg h]
    · by_cases hpre : jfcPat.isPrefixOf m2 = true
      · have hnone : lastDidNot (m2.drop jfcPat.length) = none := by
          unfold lastDidNot
          have hfil : (List.range ((m2.drop jfcPat.length).length + 1)).filter
              (fun k => decide (1 ≤ k) &&
                didNotPat.isPrefixOf ((m2.drop jfcPat.length).drop k)) = [] := by
            rw [List.filter_eq_nil_iff]
            intro k hk
            rcases Nat.eq_zero_or_pos k with h0 | h1
            · subst h0
              simp
            · have hk2 : k ≤ (m2.drop jfcPat.length).length := by
                have := List.mem_range.mp hk
                omega
              rw [h k hk2 h1]
              simp
          rw [hfil]
          rfl
        simp only [normalizeMessage]
        rw [if_pos hpre, hnone]
      · simp only [normalizeMessage]
        rw [if_neg hpre]

theorem claim_c3_witness :
    normalizeMessage (jfcPat ++ ("x".data ++ (didNotPat ++ " y".data))) =
      jfDidNot ++ " y".data ∧
    normalizeMessage "hello".data = "hello".data ∧
    normalizeMessage "Jenkinsfile content 'abc".data = "Jenkinsfile content 'abc".data :=
  ⟨claim_c3_theorem.1 "x".data " y".data (by decide) (by decide),
   claim_c3_theorem.2.1 "hello".data (Or.inl (by decide)),
   claim_c3_theorem.2.1 "Jenkinsfile content 'abc".data (Or.inr (by decide))⟩

theorem mem_insertByLine (d x : Diag) (l : List Diag) :
    x ∈ insertByLine d l → x = d ∨ x ∈ l := by
  induction l with
  | nil =>
    intro h
    simp [insertByLine] at h
    exact Or.inl h
  | cons e es ih =>
    intro h
    simp only [insertByLine] at h
    by_cases hle : d.1 ≤ e.1
    · rw [if_pos hle] at h
      rcases List.mem_cons.mp h with h1 | h2
      · exact Or.inl h1
      · exact Or.inr h2
    · rw [if_neg hle] at h
      rcases List.mem_cons.mp h with h1 | h2
      · exact Or.inr (by simp [h1])
      · rcases ih h2 with h3 | h4
        · exact Or.inl h3
        · exact Or.inr (by simp [h4])

theorem insertByLine_sortedPairwise (d : Diag) (l : List Diag)
    (h : l.Pairwise (fun a b => a.1 ≤ b.1)) :
    (insertByLine d l).Pairwise (fun a b => a.1 ≤ b.1) := by
  induction l with
  | nil => simp [insertByLine]
  | cons e es ih =>
    rcases List.pairwise_cons.mp h with ⟨he, hes⟩
    simp only [insertByLine]
    by_cases hle : d.1 ≤ e.1
    · rw [if_pos hle]
      refine List.pairwise_cons.mpr ⟨?_, h⟩
      intro x hx
      rcases List.mem_cons.mp hx with h1 | h2
      · rw [h1]; exact hle
      · exact le_trans hle (he x h2)
    · rw [if_neg hle]
      refine List.pairwise_cons.mpr ⟨?_, ih hes⟩
      intro x hx
      rcases mem_insertByLine d x es hx with h1 | h2
      · rw [h1]; omega
      · exact he x h2

theorem sortByLine_sorted (ds : List Diag) :
    (sortByLine ds).Pairwise (fun a b => a.1 ≤ b.1) := by
  induction ds with
  | nil => simp [sortByLine]
  | cons d ds ih => exact insertByLine_sortedPairwise d _ ih

theorem filter_insertByLine (d : Diag) (l : List Diag) (n : Nat) :
    (insertByLine d l).filter (fun x => x.1 == n) =
      (d :: l).filter (fun x => x.1 == n) := by
  induction l with
  | nil => rfl
  | cons e es ih =>
    simp only [insertByLine]
    by_cases hle : d.1 ≤ e.1
    · rw [if_pos hle]
    · rw [if_neg hle]
      by_cases hdn : (d.1 == n) = true
      · have hen : (e.1 == n) = false := by
          rw [beq_iff_eq] at hdn
          rw [beq_eq_false_iff_ne]
          omega
        simp [List.filter_cons, hdn, hen, ih]
      · have hdn' : (d.1 == n) = false := by
          cases hh : (d.1 == n)
          · rfl
          · exact absurd hh hdn
        simp [List.filter_cons, hdn', ih]

theorem sortByLine_filter (ds : List Diag) (n : Nat) :
    (sortByLine ds).filter (fun x => x.1 == n) = ds.filter (fun x => x.1 == n) := by
  induction ds with
  | nil => rfl
  | cons d ds ih =>
    simp only [sortByLine]
    rw [filter_insertByLine]
    simp [List.filter_cons, ih]

theorem insertByLine_perm (d : Diag) (l : List Diag) : (insertByLine d l).Perm (d :: l) := by
  induction l with
  | nil => exact List.Perm.refl _
  | cons e es ih =>
    simp only [insertByLine]
    by_cases hle : d.1 ≤ e.1
    · rw [if_pos hle]
    · rw [if_neg hle]
      exact (List.Perm.cons e ih).trans (List.Perm.swap d e es)

theorem sortByLine_perm (ds : List Diag) : (sortByLine ds).Perm ds := by
  induction ds with
  | nil => exact List.Perm.refl _
  | cons d ds ih =>
    simp only [sortByLine]
    exact (insertByLine_perm d _).trans (List.Perm.cons d ih)

/-- C4: the printed diagnostics are the flattened list stably sorted by
line number alone — the sorted list is ordered by line, it preserves, for
every line value, the original relative order of the diagnostics with that
line (stability: filtering by any line number commutes with sorting), it
is a permutation of the input, and the spec's [4,3] example prints the
line-3 diagnostic first, each line formatted as
`<filePath>:<line>:<column>: <severity>: <message>`. -/
theorem claim_c4_theorem :
    (∀ ds : List Diag, (sortByLine ds).Pairwise (fun a b => a.1 ≤ b.1)) ∧
    (∀ (ds : List Diag) (n : Nat),
      (sortByLine ds).filter (fun x => x.1 == n) = ds.filter (fun x => x.1 == n)) ∧
    (∀ ds : List Diag, (sortByLine ds).Perm ds) ∧
    lintOutput "Jenkinsfile-bad".data
      [(4, 5, "Expected a stage".data, "error".data),
       (3, 3, "No stages specified".data, "error".data)] =
      ["Jenkinsfile-bad:3:3: error: No stages specified".data,
       "Jenkinsfile-bad:4:5: error: Expected a stage".data] :=
  ⟨sortByLine_sorted, sortByLine_filter, sortByLine_perm, by decide⟩

theorem isSuccess_eq_true_iff (v : Json) : isSuccess v = true ↔ v = Json.str "success".data := by
  cases v <;> simp [isSuccess]

theorem lintResponse_extract_err (p : List Char) (r : Json) (e : PyError)
    (hx : extractDiagnostics r = .error e) :
    lintResponse p r = .error (.pyError e) := by
  unfold lintResponse
  rw [hx]

theorem lintResponse_verdict_err (p : List Char) (r : Json) (ds : List Diag) (e : PyError)
    (hx : extractDiagnostics r = .ok ds) (hv : getVerdict r = .error e) :
    lintResponse p r = .error (.pyError e) := by
  unfold lintResponse
  rw [hx, hv]

theorem lintResponse_ok_char (p : List Char) (r : Json) (ds : List Diag) (v : Json)
    (hx : extractDiagnostics r = .ok ds) (hv : getVerdict r = .ok v) :
    lintResponse p r = .ok (lintOutput p ds, isSuccess v) := by
  unfold lintResponse
  rw [hx, hv]

/-- C5: when response processing completes, the verdict is true exactly
when `data.result` equals the string "success" (any other value gives
false); and a response whose `data` is null or absent, or lacks a `result`
key, makes `lint` fail with a raw Python lookup error (`pyError`), not a
`JenkinsError`. -/
theorem claim_c5_theorem :
    (∀ (p : List Char) (r : Json) (o : List (List Char)) (b : Bool) (v : Json),
      lintResponse p r = .ok (o, b) → getVerdict r = .ok v →
      (b = true ↔ v = Json.str "success".data)) ∧
    (∀ (p : List Char) (kvs : List (List Char × Json)),
      (pyGet kvs "data".data = none ∨ pyGet kvs "data".data = some Json.null ∨
        ∃ kvs2, pyGet kvs "data".data = some (Json.obj kvs2) ∧
          pyGet kvs2 "result".data = none) →
      ∃ e, lintResponse p (Json.obj kvs) = .error (LintErr.pyError e)) := by
  constructor
  · intro p r o b v h1 h2
    cases hx : extractDiagnostics r with
    | error e =>
      rw [lintResponse_extract_err p r e hx] at h1
      exact absurd h1 (by simp)
    | ok ds =>
      rw [lintResponse_ok_char p r ds v hx h2] at h1
      have hb : b = isSuccess v := by
        injection h1 with h3
        exact (congrArg Prod.snd h3).symm
      rw [hb]
      exact isSuccess_eq_true_iff v
  · intro p kvs h
    cases hx : extractDiagnostics (Json.obj kvs) with
    | error e => exact ⟨e, lintResponse_extract_err _ _ e hx⟩
    | ok ds =>
      have hv : ∃ e, getVerdict (Json.obj kvs) = .error e := by
        rcases h with h | h | ⟨kvs2, h1, h2⟩
        · exact ⟨.keyError, by simp [getVerdict, h]⟩
        · exact ⟨.typeError, by simp [getVerdict, h]⟩
        · exact ⟨.keyError, by simp [getVerdict, h1, h2]⟩
      rcases hv with ⟨e, hv⟩
      exact ⟨e, lintResponse_verdict_err _ _ ds e hx hv⟩

theorem claim_c5_witness :
    (∃ e, lintResponse "Jenkinsfile".data (Json.obj [("data".data, Json.obj [])]) =
      .error (LintErr.pyError e)) ∧
    (true = true ↔ Json.str "success".data = Json.str "success".data) :=
  ⟨claim_c5_theorem.2 "Jenkinsfile".data [("data".data, Json.obj [])]
      (Or.inr (Or.inr ⟨[], rfl, rfl⟩)),
   claim_c5_theorem.1 "Jenkinsfile".data
      (Json.obj [("data".data, Json.obj [("result".data, Json.str "success".data)])])
      [] true (Json.str "success".data) rfl rfl⟩

/-- C6 counterexample: a response with status 304 — not a 2xx status — is
returned to the caller as a success, because the installed response hook
raises only for 4xx and 5xx statuses. -/
theorem claim_c6_counterexample :
    queryResponse false 304 = .ok 304 ∧ ¬ (200 ≤ 304 ∧ 304 < 300) :=
  ⟨rfl, by omega⟩

/-- C6 (amended): a response with a 4xx or 5xx status code makes the
request fail with a `JenkinsError`, the same error kind as a transport
failure; statuses outside [400, 600) — including non-2xx ones such as
304 — are returned to the caller unchanged. -/
theorem claim_c6_amended :
    (∀ s : Nat, 400 ≤ s → s < 600 →
      queryResponse false s = .error (.jenkinsError "http error".data)) ∧
    (∀ s : Nat, s < 400 ∨ 600 ≤ s → queryResponse false s = .ok s) ∧
    (∀ s : Nat, queryResponse true s = .error (.jenkinsError "request exception".data)) := by
  refine ⟨?_, ?_, ?_⟩
  · intro s h1 h2
    simp [queryResponse, raiseForStatus, h1, h2]
  · intro s h
    have hn : ¬ (400 ≤ s ∧ s < 600) := by omega
    simp only [queryResponse, raiseForStatus]
    rw [if_neg (by simp), if_neg (by simp [hn])]
  · intro s
    simp [queryResponse]

theorem claim_c6_witness :
    queryResponse false 404 = .error (.jenkinsError "http error".data) ∧
    queryResponse false 304 = .ok 304 ∧
    queryResponse true 200 = .error (.jenkinsError "request exception".data) :=
  ⟨claim_c6_amended.1 404 (by omega) (by omega),
   claim_c6_amended.2.1 304 (Or.inl (by omega)),
   claim_c6_amended.2.2 200⟩

theorem isOkTrue_ok (b : Bool) : isOkTrue (Except.ok b) = b := by
  cases b <;> rfl

theorem lintLoop_no_uncaught (rs : List (Except LintErr Bool)) :
    ∀ status : Bool, (∀ r ∈ rs, isUncaught r = false) →
      lintLoop status rs = (.ok (status && rs.all isOkTrue), rs.length) := by
  induction rs with
  | nil =>
    intro status _
    simp [lintLoop]
  | cons r rs ih =>
    intro status h
    have hr : isUncaught r = false := h r (by simp)
    have hrs : ∀ x ∈ rs, isUncaught x = false := fun x hx => h x (by simp [hx])
    cases r with
    | ok b =>
      simp only [lintLoop]
      rw [ih (status && b) hrs]
      simp [List.all_cons, isOkTrue_ok, Bool.and_assoc]
    | error e =>
      cases e with
      | jenkinsError m =>
        simp only [lintLoop]
        rw [ih (status && false) hrs]
        simp [List.all_cons, isOkTrue]
      | pyError pe => exact absurd hr (by simp [isUncaught])

/-- C7 (amended): files are attempted strictly in order; a caught
`LinterError` for a file counts as failure without stopping the loop, and
the exit code is 0 exactly when every per-file outcome is `true` —
provided no file raises an error outside the `LinterError` hierarchy.  An
uncaught error (e.g. the missing-`result` lookup failure) aborts the loop
instead of being counted. -/
theorem claim_c7_amended :
    ∀ rs : List (Except LintErr Bool), (∀ r ∈ rs, isUncaught r = false) →
      mainExitCode rs = (.ok (if rs.all isOkTrue then 0 else 1), rs.length) := by
  intro rs h
  simp [mainExitCode, lintLoop_no_uncaught rs true h]

/-- C7 counterexample: with two files where the first lint raises an
uncaught structural error, the loop aborts after one attempt — the second
file is never linted and no boolean exit status is computed, contradicting
"any error ... does not abort processing of the remaining files". -/
theorem claim_c7_counterexample :
    mainExitCode [Except.error (LintErr.pyError PyError.keyError), Except.ok true] =
      (Except.error PyError.keyError, 1) ∧ (1 : Nat) ≠ 2 :=
  ⟨rfl, by omega⟩

theorem claim_c7_witness :
    mainExitCode [Except.ok true, Except.error (LintErr.jenkinsError []), Except.ok true] =
      (Except.ok 1, 3) ∧
    mainExitCode [Except.ok true] = (Except.ok 0, 1) := by
  constructor
  · have h := claim_c7_amended
      [Except.ok true, Except.error (LintErr.jenkinsError []), Except.ok true] (by decide)
    have e : (if ([Except.ok true, Except.error (LintErr.jenkinsError []),
        Except.ok true].all isOkTrue) then (0 : Nat) else 1) = 1 := rfl
    rw [e] at h
    exact h
  · have h := claim_c7_amended [Except.ok true] (by decide)
    have e : (if ([Except.ok true].all isOkTrue) then (0 : Nat) else 1) = 0 := rfl
    rw [e] at h
    exact h

theorem mapExcept_str (ms : List (List Char)) :
    mapExcept asString (ms.map Json.str) = .ok ms := by
  induction ms with
  | nil => rfl
  | cons m ms ih => simp [List.map_cons, mapExcept, asString, ih]

theorem except_bind_ok {α β : Type} (a : α) (f : α → Except PyError β) :
    (Except.ok a : Except PyError α).bind f = f a := rfl

theorem except_map_ok {α β : Type} (a : α) (f : α → β) :
    (Except.ok a : Except PyError α).map f = .ok (f a) := rfl

theorem extractDiagnostics_of (r : Json) (data : Json) (errs : List Json)
    (pairs : List (List Char × List Char))
    (h1 : getData r = .ok data) (h2 : getErrors data = .ok errs)
    (h3 : flattenErrors errs = .ok pairs) :
    extractDiagnostics r = .ok (pairs.map diagOfPair) := by
  rw [extractDiagnostics, h1, except_bind_ok, h2, except_bind_ok, h3, except_map_ok]

theorem flattenOne_single (s : List Char) (v : Json) (msgs : List (List Char))
    (h : mapExcept asString (asMessageList v) = .ok msgs) :
    flattenOne (Json.obj [(s, v)]) = .ok (msgs.map (fun mm => (s, mm))) := by
  simp only [flattenOne, errorItems, except_bind_ok, mapExcept, h, except_map_ok,
    List.flatten, List.append_nil]

theorem flattenErrors_single (e : Json) (pairs : List (List Char × List Char))
    (h : flattenOne e = .ok pairs) :
    flattenErrors [e] = .ok pairs := by
  simp only [flattenErrors, mapExcept, h, except_map_ok, List.flatten, List.append_nil]

/-- C8: a null or absent `data` is treated as an empty object for error
extraction; a null or absent `data.errors` yields an empty diagnostic list
(so nothing is printed); a severity mapping to a single string or to a
list of strings flattens to the corresponding (severity, message) pairs;
and the response with `data.result = "success"` and no errors yields
outcome true with no output lines. -/
theorem claim_c8_theorem :
    (∀ kvs : List (List Char × Json),
      pyGet kvs "data".data = none ∨ pyGet kvs "data".data = some Json.null →
      extractDiagnostics (Json.obj kvs) = .ok []) ∧
    (∀ (kvs kvs2 : List (List Char × Json)),
      pyGet kvs "data".data = some (Json.obj kvs2) →
      pyGet kvs2 "errors".data = none ∨ pyGet kvs2 "errors".data = some Json.null →
      extractDiagnostics (Json.obj kvs) = .ok []) ∧
    (∀ (s m : List Char), flattenErrors [Json.obj [(s, Json.str m)]] = .ok [(s, m)]) ∧
    (∀ (s : List Char) (ms : List (List Char)),
      flattenErrors [Json.obj [(s, Json.arr (ms.map Json.str))]] =
      .ok (ms.map (fun m => (s, m)))) ∧
    (∀ p, lintResponse p
        (Json.obj [("data".data, Json.obj [("result".data, Json.str "success".data)])]) =
      .ok ([], true)) := by
  refine ⟨?_, ?_, ?_, ?_, ?_⟩
  · intro kvs h
    have hd : getData (Json.obj kvs) = .ok (Json.obj []) := by
      have e : getData (Json.obj kvs) =
          .ok (pyOrElse ((pyGet kvs "data".data).getD .null) (.obj [])) := rfl
      rcases h with h | h <;> rw [e, h] <;> rfl
    exact extractDiagnostics_of _ _ _ _ hd rfl rfl
  · intro kvs kvs2 hdata herr
    have e : getData (Json.obj kvs) =
        .ok (pyOrElse ((pyGet kvs "data".data).getD .null) (.obj [])) := rfl
    cases kvs2 with
    | nil =>
      have hd : getData (Json.obj kvs) = .ok (Json.obj []) := by rw [e, hdata]; rfl
      exact extractDiagnostics_of _ _ _ _ hd rfl rfl
    | cons kv kvs2' =>
      have hd : getData (Json.obj kvs) = .ok (Json.obj (kv :: kvs2')) := by
        rw [e, hdata]; rfl
      have he : getErrors (Json.obj (kv :: kvs2')) = .ok [] := by
        have e2 : getErrors (Json.obj (kv :: kvs2')) = errorsList (pyOrElse
            ((pyGet (kv :: kvs2') "errors".data).getD .null) (.arr [])) := rfl
        rcases herr with h | h <;> rw [e2, h] <;> rfl
      exact extractDiagnostics_of _ _ _ _ hd he rfl
  · intro s m
    rfl
  · intro s ms
    have h1 : mapExcept asString (asMessageList (Json.arr (ms.map Json.str))) = .ok ms :=
      mapExcept_str ms
    exact flattenErrors_single _ _ (flattenOne_single s _ ms h1)
  · intro p
    rfl

theorem claim_c8_witness :
    extractDiagnostics (Json.obj []) = .ok [] ∧
    extractDiagnostics
      (Json.obj [("data".data, Json.obj [("result".data, Json.str "success".data)])]) =
      .ok [] ∧
    lintResponse "Jenkinsfile".data
      (Json.obj [("data".data, Json.obj [("result".data, Json.str "success".data)])]) =
      .ok ([], true) :=
  ⟨claim_c8_theorem.1 [] (Or.inl rfl),
   claim_c8_theorem.2.1 [("data".data, Json.obj [("result".data, Json.str "success".data)])]
      [("result".data, Json.str "success".data)] rfl (Or.inl rfl),
   claim_c8_theorem.2.2.2.2 "Jenkinsfile".data⟩

/-- C9: in the model of the CLI's `with jenkins:` block, `__exit__` closes
the session exactly once on every exit path — both when the per-file loop
completes normally and when an error escapes it — and the body's outcome
is passed through unchanged. -/
theorem claim_c9_theorem :
    (∀ r : Except PyError Bool,
      (pyWith (jenkinsSessionExit true) (r, 0)).2 = 1 ∧
      (pyWith (jenkinsSessionExit true) (r, 0)).1 = r) ∧
    (∀ rs : List (Except LintErr Bool),
      (mainWithSession rs).2 = 1 ∧ (mainWithSession rs).1 = (lintLoop true rs).1) := by
  constructor
  · intro r
    cases r <;> simp [pyWith, jenkinsSessionExit]
  · intro rs
    unfold mainWithSession
    cases h : (lintLoop true rs).1 <;> simp [pyWith, jenkinsSessionExit, h]

/-- C10: HTTP Basic credentials are attached iff the username is a
non-empty string; a `None` or empty username leaves the session
unauthenticated even when a password is supplied; and a non-empty username
with a `None` password uses the empty string as password. -/
theorem claim_c10_theorem :
    ∀ u p : Option (List Char),
      ((∃ s, u = some s ∧ s ≠ []) ↔ (initAuth u p).isSome = true) ∧
      (u = none → initAuth u p = none) ∧
      (u = some [] → initAuth u p = none) ∧
      (∀ s, u = some s → s ≠ [] → initAuth u none = some (s, [])) := by
  intro u p
  refine ⟨⟨?_, ?_⟩, ?_, ?_, ?_⟩
  · rintro ⟨s, rfl, hs⟩
    have he : s.isEmpty = false := by
      cases s with
      | nil => exact absurd rfl hs
      | cons c cs => rfl
    simp [initAuth, he]
  · intro h
    cases u with
    | none => simp [initAuth] at h
    | some s =>
      refine ⟨s, rfl, ?_⟩
      intro hs
      subst hs
      simp [initAuth] at h
  · rintro rfl
    rfl
  · rintro rfl
    rfl
  · intro s hu hs
    subst hu
    have he : s.isEmpty = false := by
      cases s with
      | nil => exact absurd rfl hs
      | cons c cs => rfl
    simp [initAuth, he, pyOrEmpty]

theorem claim_c10_witness :
    initAuth (some "admin".data) none = some ("admin".data, []) ∧
    initAuth none (some "secret".data) = none ∧
    initAuth (some []) (some "secret".data) = none :=
  ⟨(claim_c10_theorem (some "admin".data) none).2.2.2 "admin".data rfl (by decide),
   (claim_c10_theorem none (some "secret".data)).2.1 rfl,
   (claim_c10_theorem (some []) (some "secret".data)).2.2.1 rfl⟩

/-- C1 counterexample: for the response text "Jenkins-Crumb:abc:def" (which
begins case-insensitively with "jenkins-crumb:"), the code produces the
header value "abc", not the trimmed substring after the first colon, which
would be "abc:def". -/
theorem claim_c1_counterexample :
    getCrumb "http://jenkins".data "Jenkins-Crumb:abc:def".data =
      .ok ("Jenkins-Crumb".data, "abc".data) ∧
    "abc".data ≠ "abc:def".data :=
  ⟨rfl, by decide⟩
